import Mathlib

/-!
Verification of the PromptMaster client core against its specification.

The development shallowly embeds the two core subsystems:

* the Adjustment History Engine of `src/components/ImageEditor.tsx`
  (working adjustment vector, bounded undo/redo history with branch
  truncation, CSS filter-string composition);
* the resilient remote client of `src/services/gemini.ts`
  (`callWithRetry` exponential backoff, `deepScanInternet` response
  parsing) and the connection-health state machine of `src/App.tsx`.

JavaScript numbers are modelled as exact rationals (`ℚ`); all channel
values appearing in the claims are small decimals for which IEEE-754
double arithmetic in the source computes the same exact results.
React `useState` state is modelled as explicit record-passing.
-/

set_option maxRecDepth 10000

/-- The seven numeric adjustment channels (`ImageAdjustments` in
`src/types.ts`).  Channels are JS numbers, modelled as `ℚ`. -/
structure ImageAdjustments where
  brightness : ℚ
  contrast : ℚ
  saturation : ℚ
  exposure : ℚ
  hue : ℚ
  vibrance : ℚ
  sharpness : ℚ
deriving DecidableEq, Repr

/-- `DEFAULT_ADJUSTMENTS` from `src/components/ImageEditor.tsx`. -/
def DEFAULT_ADJUSTMENTS : ImageAdjustments :=
  { brightness := 100, contrast := 100, saturation := 100,
    exposure := 100, hue := 0, vibrance := 100, sharpness := 0 }

/-- A key of `ImageAdjustments` (the `key` argument of
`handleAdjustmentChange`). -/
inductive AdjKey where
  | brightness | contrast | saturation | exposure | hue | vibrance | sharpness
deriving DecidableEq, Repr

/-- `{ ...adjustments, [key]: value }`: update one channel. -/
def setKey (a : ImageAdjustments) : AdjKey → ℚ → ImageAdjustments
  | .brightness, v => { a with brightness := v }
  | .contrast, v => { a with contrast := v }
  | .saturation, v => { a with saturation := v }
  | .exposure, v => { a with exposure := v }
  | .hue, v => { a with hue := v }
  | .vibrance, v => { a with vibrance := v }
  | .sharpness, v => { a with sharpness := v }

/-- The React state of `ImageEditor` relevant to the history engine:
`adjustments` (the working vector), `history`, and `historyIndex`. -/
structure EditorState where
  adjustments : ImageAdjustments
  history : List ImageAdjustments
  historyIndex : Nat
deriving DecidableEq, Repr

/-- The initial editor state: one-entry log at position 0. -/
def initialEditor : EditorState :=
  { adjustments := DEFAULT_ADJUSTMENTS,
    history := [DEFAULT_ADJUSTMENTS],
    historyIndex := 0 }

/-- `pushToHistory` (ImageEditor.tsx lines 32-39):
`newHistory = history.slice(0, historyIndex + 1)` then
`newHistory.push(newAdjustments)`; if the length exceeds 25 the first
entry is shifted off; the index is set to the (post-shift) last entry.
`pushToHistory` does not touch `adjustments`. -/
def pushToHistory (s : EditorState) (v : ImageAdjustments) : EditorState :=
  if 25 < (s.history.take (s.historyIndex + 1) ++ [v]).length then
    { s with history := (s.history.take (s.historyIndex + 1) ++ [v]).tail,
             historyIndex := (s.history.take (s.historyIndex + 1) ++ [v]).tail.length - 1 }
  else
    { s with history := s.history.take (s.historyIndex + 1) ++ [v],
             historyIndex := (s.history.take (s.historyIndex + 1) ++ [v]).length - 1 }

/-- `undo` (lines 41-47).  Out-of-range access `history[prevIndex]`
cannot occur in reachable states; `getD` with the default vector is the
total rendering of the JS index access. -/
def undo (s : EditorState) : EditorState :=
  if 0 < s.historyIndex then
    { s with historyIndex := s.historyIndex - 1,
             adjustments := s.history.getD (s.historyIndex - 1) DEFAULT_ADJUSTMENTS }
  else s

/-- `redo` (lines 49-55).  The JS guard `historyIndex < history.length - 1`
agrees with the `Nat` reading: for an empty log both sides reject. -/
def redo (s : EditorState) : EditorState :=
  if s.historyIndex < s.history.length - 1 then
    { s with historyIndex := s.historyIndex + 1,
             adjustments := s.history.getD (s.historyIndex + 1) DEFAULT_ADJUSTMENTS }
  else s

/-- `handleAdjustmentChange` (lines 57-60): update the working vector only. -/
def handleAdjustmentChange (s : EditorState) (k : AdjKey) (v : ℚ) : EditorState :=
  { s with adjustments := setKey s.adjustments k v }

/-- `handleAdjustmentEnd` (lines 62-66), the commit operation: push the
working vector when its JSON serialisation differs from the entry at the
current position.  For this fixed-shape record, `JSON.stringify`
inequality is channel-wise inequality. -/
def handleAdjustmentEnd (s : EditorState) : EditorState :=
  if s.adjustments ≠ s.history.getD s.historyIndex DEFAULT_ADJUSTMENTS then
    pushToHistory s s.adjustments
  else s

/-- `handleReset` (lines 68-71): set the working vector to the default
and push unconditionally. -/
def handleReset (s : EditorState) : EditorState :=
  pushToHistory { s with adjustments := DEFAULT_ADJUSTMENTS } DEFAULT_ADJUSTMENTS

/-- The operations a caller can drive the history engine through. -/
inductive EditorOp where
  | set : AdjKey → ℚ → EditorOp
  | commit
  | undoOp
  | redoOp
  | reset
deriving DecidableEq, Repr

/-- Apply one operation. -/
def applyOp (s : EditorState) : EditorOp → EditorState
  | .set k v => handleAdjustmentChange s k v
  | .commit => handleAdjustmentEnd s
  | .undoOp => undo s
  | .redoOp => redo s
  | .reset => handleReset s

/-- Apply a sequence of operations from a given state. -/
def applyOps (s : EditorState) (ops : List EditorOp) : EditorState :=
  ops.foldl applyOp s

/-- Apply a sequence of operations from the initial state. -/
def run (ops : List EditorOp) : EditorState :=
  applyOps initialEditor ops

/-- The structural history invariant: bounded log, valid position. -/
def EditorInv (s : EditorState) : Prop :=
  s.history.length ≤ 25 ∧ s.historyIndex < s.history.length

theorem getD_concat (l : List ImageAdjustments) (a d : ImageAdjustments) :
    (l ++ [a]).getD l.length d = a := by
  induction l with
  | nil => rfl
  | cons x xs ih =>
      simp only [List.cons_append, List.length_cons, List.getD_cons_succ]
      exact ih

theorem pushToHistory_inv (s : EditorState) (v : ImageAdjustments)
    (h : EditorInv s) : EditorInv (pushToHistory s v) := by
  obtain ⟨hlen, hidx⟩ := h
  unfold pushToHistory EditorInv
  split <;> rename_i hsplit <;> constructor <;>
    simp only [List.length_tail, List.length_append, List.length_take,
      List.length_cons, List.length_nil] at hsplit ⊢ <;> omega

theorem applyOp_inv (s : EditorState) (op : EditorOp)
    (h : EditorInv s) : EditorInv (applyOp s op) := by
  obtain ⟨hlen, hidx⟩ := h
  cases op with
  | set k v => exact ⟨hlen, hidx⟩
  | commit =>
      show EditorInv (handleAdjustmentEnd s)
      rw [handleAdjustmentEnd]
      split
      · exact pushToHistory_inv s s.adjustments ⟨hlen, hidx⟩
      · exact ⟨hlen, hidx⟩
  | undoOp =>
      show EditorInv (undo s)
      rw [undo]
      split
      · refine ⟨hlen, ?_⟩
        show s.historyIndex - 1 < s.history.length
        omega
      · exact ⟨hlen, hidx⟩
  | redoOp =>
      show EditorInv (redo s)
      rw [redo]
      split
      · rename_i hc
        refine ⟨hlen, ?_⟩
        show s.historyIndex + 1 < s.history.length
        omega
      · exact ⟨hlen, hidx⟩
  | reset =>
      show EditorInv (handleReset s)
      exact pushToHistory_inv _ DEFAULT_ADJUSTMENTS ⟨hlen, hidx⟩

theorem applyOps_inv (ops : List EditorOp) (s : EditorState)
    (h : EditorInv s) : EditorInv (applyOps s ops) := by
  induction ops generalizing s with
  | nil => exact h
  | cons op rest ih => exact ih (applyOp s op) (applyOp_inv s op h)

theorem run_inv (ops : List EditorOp) : EditorInv (run ops) :=
  applyOps_inv ops initialEditor (by constructor <;> simp [initialEditor])

theorem pushToHistory_adjustments (s : EditorState) (v : ImageAdjustments) :
    (pushToHistory s v).adjustments = s.adjustments := by
  unfold pushToHistory
  split <;> rfl

theorem getD_last_concat (l : List ImageAdjustments) (v d : ImageAdjustments) :
    (l ++ [v]).getD ((l ++ [v]).length - 1) d = v := by
  have h : (l ++ [v]).length - 1 = l.length := by simp
  rw [h]
  exact getD_concat l v d

/-- The entry at the position resulting from a push is the pushed vector. -/
theorem pushToHistory_getD (s : EditorState) (v : ImageAdjustments) :
    (pushToHistory s v).history.getD (pushToHistory s v).historyIndex
      DEFAULT_ADJUSTMENTS = v := by
  unfold pushToHistory
  split
  · rename_i hlen
    cases htake : s.history.take (s.historyIndex + 1) with
    | nil => rw [htake] at hlen; simp at hlen
    | cons x t => exact getD_last_concat t v DEFAULT_ADJUSTMENTS
  · exact getD_last_concat _ v DEFAULT_ADJUSTMENTS

/-- The settled-state predicate: the working vector equals the stored
entry at the current history position. -/
def Settled (s : EditorState) : Prop :=
  s.adjustments = s.history.getD s.historyIndex DEFAULT_ADJUSTMENTS

instance settledDecidable (s : EditorState) : Decidable (Settled s) :=
  inferInstanceAs
    (Decidable (s.adjustments = s.history.getD s.historyIndex DEFAULT_ADJUSTMENTS))

/-- A commit always leaves the state settled. -/
theorem handleAdjustmentEnd_settled (s : EditorState) :
    Settled (handleAdjustmentEnd s) := by
  unfold handleAdjustmentEnd
  split
  · show Settled (pushToHistory s s.adjustments)
    unfold Settled
    rw [pushToHistory_adjustments]
    exact (pushToHistory_getD s s.adjustments).symm
  · rename_i heq
    exact not_not.mp heq

/-- A reset always leaves the state settled. -/
theorem handleReset_settled (s : EditorState) : Settled (handleReset s) := by
  unfold handleReset Settled
  rw [pushToHistory_adjustments]
  exact (pushToHistory_getD _ DEFAULT_ADJUSTMENTS).symm

/-- `undo` preserves settledness (it either moves, re-reading the entry
at the new position, or is a no-op at position zero). -/
theorem undo_settled (s : EditorState) (h : Settled s) : Settled (undo s) := by
  unfold undo
  split
  · show s.history.getD (s.historyIndex - 1) DEFAULT_ADJUSTMENTS
      = s.history.getD (s.historyIndex - 1) DEFAULT_ADJUSTMENTS
    rfl
  · exact h

/-- `redo` preserves settledness. -/
theorem redo_settled (s : EditorState) (h : Settled s) : Settled (redo s) := by
  unfold redo
  split
  · show s.history.getD (s.historyIndex + 1) DEFAULT_ADJUSTMENTS
      = s.history.getD (s.historyIndex + 1) DEFAULT_ADJUSTMENTS
    rfl
  · exact h

/-- Tracks, along a sequence of operations, whether no `setChannel` is
pending (every `setChannel` so far is followed by a later commit or
reset). -/
def noPendingStep (b : Bool) : EditorOp → Bool
  | .set _ _ => false
  | .commit => true
  | .reset => true
  | .undoOp => b
  | .redoOp => b

/-- `noPending ops` holds when no uncommitted `setChannel` remains at
the end of `ops`. -/
def noPending (ops : List EditorOp) : Bool :=
  ops.foldl noPendingStep true

theorem applyOps_settled_aux (ops : List EditorOp) (s : EditorState) (b : Bool)
    (h : b = true → Settled s) :
    ops.foldl noPendingStep b = true → Settled (applyOps s ops) := by
  induction ops generalizing s b with
  | nil => exact h
  | cons op rest ih =>
      intro hfold
      refine ih (applyOp s op) (noPendingStep b op) ?_ hfold
      cases op with
      | set k v => intro hb; cases hb
      | commit => intro _; exact handleAdjustmentEnd_settled s
      | reset => intro _; exact handleReset_settled s
      | undoOp => intro hb; exact undo_settled s (h hb)
      | redoOp => intro hb; exact redo_settled s (h hb)

theorem run_settled (ops : List EditorOp) (h : noPending ops = true) :
    Settled (run ops) :=
  applyOps_settled_aux ops initialEditor true (fun _ => rfl) h

/-- Iterated `redo`. -/
def redoN : Nat → EditorState → EditorState
  | 0, s => s
  | n + 1, s => redoN n (redo s)

theorem redoN_fixed (n : Nat) (s : EditorState) (h : redo s = s) :
    redoN n s = s := by
  induction n with
  | zero => rfl
  | succ n ih => show redoN n (redo s) = s; rw [h]; exact ih

/-- Sample adjustment vectors used in concrete scenarios. -/
def adjB : ImageAdjustments := { DEFAULT_ADJUSTMENTS with brightness := 10 }

def adjC : ImageAdjustments := { DEFAULT_ADJUSTMENTS with brightness := 20 }

def adjD : ImageAdjustments := { DEFAULT_ADJUSTMENTS with brightness := 30 }

/-- **C2**: every sequence of operations from the initial one-entry state
keeps the log at most 25 long with the position a valid index (proved for
all operation sequences, which subsumes commit-only sequences); and when
an append would exceed capacity 25, the oldest entry is evicted and the
position is set to the last entry. -/
theorem c2_history_bounded :
    (∀ ops : List EditorOp, (run ops).history.length ≤ 25
        ∧ (run ops).historyIndex < (run ops).history.length)
  ∧ (∀ (s : EditorState) (v : ImageAdjustments),
        25 < (s.history.take (s.historyIndex + 1) ++ [v]).length →
        (pushToHistory s v).history
            = (s.history.take (s.historyIndex + 1) ++ [v]).tail
          ∧ (pushToHistory s v).historyIndex
              = (pushToHistory s v).history.length - 1) := by
  constructor
  · intro ops
    exact run_inv ops
  · intro s v h
    rw [pushToHistory, if_pos h]
    exact ⟨rfl, rfl⟩

def s25 : EditorState :=
  ⟨DEFAULT_ADJUSTMENTS, List.replicate 25 DEFAULT_ADJUSTMENTS, 24⟩

/-- Witness for C2: a full 25-entry log at the last position overflows on
push, evicting the first entry. -/
theorem c2_history_bounded_witness :
    25 < (s25.history.take (s25.historyIndex + 1) ++ [adjB]).length
  ∧ ((pushToHistory s25 adjB).history
        = (s25.history.take (s25.historyIndex + 1) ++ [adjB]).tail
      ∧ (pushToHistory s25 adjB).historyIndex
          = (pushToHistory s25 adjB).history.length - 1) :=
  ⟨by decide, c2_history_bounded.2 s25 adjB (by decide)⟩

def branchStart : EditorState := ⟨adjC, [DEFAULT_ADJUSTMENTS, adjB, adjC], 2⟩

def afterUndo : EditorState := undo branchStart

def afterCommitD : EditorState :=
  handleAdjustmentEnd (handleAdjustmentChange afterUndo .brightness 30)

/-- **C3**: committing a differing working vector truncates all entries
past the current position, appends the working vector and moves the
position to the new last entry; concretely, from log [A,B,C] at position
2, undo (position 1, vector B) then committing D yields [A,B,D] at
position 2, and C is unreachable by any number of redos. -/
theorem c3_branch_truncation :
    (∀ s : EditorState,
       s.adjustments ≠ s.history.getD s.historyIndex DEFAULT_ADJUSTMENTS →
       (s.history.take (s.historyIndex + 1) ++ [s.adjustments]).length ≤ 25 →
       (handleAdjustmentEnd s).history
           = s.history.take (s.historyIndex + 1) ++ [s.adjustments]
         ∧ (handleAdjustmentEnd s).historyIndex
             = (handleAdjustmentEnd s).history.length - 1)
  ∧ afterUndo.historyIndex = 1 ∧ afterUndo.adjustments = adjB
  ∧ afterCommitD.history = [DEFAULT_ADJUSTMENTS, adjB, adjD]
  ∧ afterCommitD.historyIndex = 2
  ∧ ∀ n : Nat, (redoN n afterCommitD).adjustments ≠ adjC := by
  refine ⟨?_, by decide, by decide, by decide, by decide, ?_⟩
  · intro s hne hlen
    rw [handleAdjustmentEnd, if_pos hne, pushToHistory, if_neg (by omega)]
    exact ⟨rfl, rfl⟩
  · intro n
    have hfix : redo afterCommitD = afterCommitD := by decide
    rw [redoN_fixed n _ hfix]
    decide

def c3w : EditorState := ⟨adjB, [DEFAULT_ADJUSTMENTS], 0⟩

/-- Witness for C3: a differing working vector on a one-entry log. -/
theorem c3_branch_truncation_witness :
    (c3w.adjustments ≠ c3w.history.getD c3w.historyIndex DEFAULT_ADJUSTMENTS)
  ∧ (c3w.history.take (c3w.historyIndex + 1) ++ [c3w.adjustments]).length ≤ 25
  ∧ ((handleAdjustmentEnd c3w).history
        = c3w.history.take (c3w.historyIndex + 1) ++ [c3w.adjustments]
      ∧ (handleAdjustmentEnd c3w).historyIndex
          = (handleAdjustmentEnd c3w).history.length - 1) :=
  ⟨by decide, by decide, c3_branch_truncation.1 c3w (by decide) (by decide)⟩

def c4cex : EditorState := ⟨DEFAULT_ADJUSTMENTS, [DEFAULT_ADJUSTMENTS, adjB], 0⟩

/-- **C4 counterexample**: a (settled, reachable) state with a 2-entry
log at position 0: `undo` is a no-op there, but `redo` advances to
position 1, so undo-then-redo changes the working vector. -/
theorem c4_counterexample :
    2 ≤ c4cex.history.length
  ∧ (redo (undo c4cex)).adjustments ≠ c4cex.adjustments := by
  decide

/-- **C4 (amended)**: for every state with at least 2 entries whose
position is at least 1 and whose working vector equals the entry at the
current position, undo followed immediately by redo restores the working
vector to its pre-undo value. -/
theorem c4_undo_redo_amended (s : EditorState) (h2 : 2 ≤ s.history.length)
    (h1 : 1 ≤ s.historyIndex) (hlt : s.historyIndex < s.history.length)
    (hs : Settled s) : (redo (undo s)).adjustments = s.adjustments := by
  rw [undo, if_pos (by omega : 0 < s.historyIndex), redo]
  split
  · show s.history.getD (s.historyIndex - 1 + 1) DEFAULT_ADJUSTMENTS
      = s.adjustments
    have heq : s.historyIndex - 1 + 1 = s.historyIndex := by omega
    rw [heq]
    exact hs.symm
  · rename_i hc
    exfalso
    have hc' : ¬ (s.historyIndex - 1 < s.history.length - 1) := hc
    omega

def c4w : EditorState := ⟨adjB, [DEFAULT_ADJUSTMENTS, adjB], 1⟩

/-- Witness for the amended C4. -/
theorem c4_undo_redo_amended_witness :
    (2 ≤ c4w.history.length ∧ 1 ≤ c4w.historyIndex
      ∧ c4w.historyIndex < c4w.history.length ∧ Settled c4w)
  ∧ (redo (undo c4w)).adjustments = c4w.adjustments :=
  ⟨⟨by decide, by decide, by decide, by decide⟩,
   c4_undo_redo_amended c4w (by decide) (by decide) (by decide) (by decide)⟩

def c6cexOps : List EditorOp := [.set .brightness 50, .undoOp]

/-- **C6 counterexample**: the sequence [setChannel, undo] ends in an
operation that is not a setChannel, yet the working vector differs from
the stored entry at the current position (the undo at position 0 is a
no-op and does not settle the pending edit). -/
theorem c6_counterexample :
    c6cexOps.getLast? = some EditorOp.undoOp
  ∧ (run c6cexOps).adjustments
      ≠ (run c6cexOps).history.getD (run c6cexOps).historyIndex
          DEFAULT_ADJUSTMENTS := by
  decide

/-- **C6 (amended)**: after every sequence of operations in which no
setChannel occurs after the last commit or reset (no uncommitted edit
remains pending), the working vector equals the vector stored at the
current history position. -/
theorem c6_no_pending_settled (ops : List EditorOp)
    (h : noPending ops = true) :
    (run ops).adjustments
      = (run ops).history.getD (run ops).historyIndex DEFAULT_ADJUSTMENTS :=
  run_settled ops h

def c6wOps : List EditorOp := [.set .brightness 50, .commit, .undoOp, .redoOp]

/-- Witness for the amended C6. -/
theorem c6_no_pending_settled_witness :
    noPending c6wOps = true
  ∧ (run c6wOps).adjustments
      = (run c6wOps).history.getD (run c6wOps).historyIndex
          DEFAULT_ADJUSTMENTS :=
  ⟨by decide, c6_no_pending_settled c6wOps (by decide)⟩

/-- **C10**: undo and redo never change the history log itself; they
modify only the position and the working vector. -/
theorem c10_undo_redo_preserve_log (s : EditorState) :
    (undo s).history = s.history ∧ (redo s).history = s.history := by
  constructor
  · rw [undo]
    split <;> rfl
  · rw [redo]
    split <;> rfl

/-- Decimal rendering of a JS number inside the filter string.  Values
arising in the claims are integral and render exactly as in JS; the
decimal shape of non-integral values is abstracted as num/den. -/
def renderNum (q : ℚ) : String :=
  if q.den = 1 then toString q.num else toString q.num ++ "/" ++ toString q.den

/-- JS `Array.prototype.join(' ')`: elements interleaved with single
spaces (an empty last element hence leaves a trailing space). -/
def joinSpace : List String → String
  | [] => ""
  | [x] => x
  | x :: xs => x ++ " " ++ joinSpace xs

/-- The six elements of the `filterString` array literal
(ImageEditor.tsx lines 87-94): brightness, contrast boosted by
0.2 × sharpness, saturation shifted by (vibrance − 100), exposure as
opacity, hue rotation, and — only when sharpness exceeds 50 — an extra
luminance boost of 0.05 × sharpness, otherwise the empty string. -/
def filterTerms (a : ImageAdjustments) : List String :=
  [ "brightness(" ++ renderNum a.brightness ++ "%)",
    "contrast(" ++ renderNum (a.contrast + a.sharpness * 0.2) ++ "%)",
    "saturate(" ++ renderNum (a.saturation + (a.vibrance - 100)) ++ "%)",
    "opacity(" ++ renderNum a.exposure ++ "%)",
    "hue-rotate(" ++ renderNum a.hue ++ "deg)",
    if 50 < a.sharpness then
      "brightness(" ++ renderNum (100 + a.sharpness * 0.05) ++ "%)"
    else "" ]

/-- `filterString`: the six elements joined by `' '`. -/
def filterString (a : ImageAdjustments) : String :=
  joinSpace (filterTerms a)

/-- The first five (always non-empty) transform terms. -/
def baseTerms (a : ImageAdjustments) : List String :=
  (filterTerms a).take 5

/-- The extra luminance-boost term. -/
def lumTerm (a : ImageAdjustments) : String :=
  "brightness(" ++ renderNum (100 + a.sharpness * 0.05) ++ "%)"

theorem stringExt {s t : String} (h : s.data = t.data) : s = t := by
  cases s with
  | mk a => cases t with
    | mk b => exact congrArg String.mk h

theorem ne_empty_of_data_cons {s : String} {c : Char} {l : List Char}
    (h : s.data = c :: l) : s ≠ "" := by
  intro he
  rw [he] at h
  exact List.noConfusion h

def sharp80 : ImageAdjustments := { DEFAULT_ADJUSTMENTS with sharpness := 80 }

def sharp40 : ImageAdjustments := { DEFAULT_ADJUSTMENTS with sharpness := 40 }

theorem lumTerm_data_getLast (a : ImageAdjustments) :
    (lumTerm a).data.getLast? = some ')' := by
  show ((("brightness(" ++ renderNum (100 + a.sharpness * 0.05)) ++ "%)").data).getLast?
    = some ')'
  rw [String.data_append, List.getLast?_append]
  rfl

/-- **C5**: the composed filter description carries the fixed coupling
rules — contrast term is contrast + 0.2 × sharpness, saturation term is
saturation + (vibrance − 100), brightness/exposure(opacity)/hue pass
through, and the extra luminance term (0.05 × sharpness over neutral
100) occupies the sixth slot exactly when sharpness exceeds 50; with
sharpness 80 the description contains "brightness(104%)", with
sharpness 40 no luminance term appears. -/
theorem c5_filter_coupling :
    (∀ a : ImageAdjustments,
       (filterTerms a).getD 0 "" = "brightness(" ++ renderNum a.brightness ++ "%)"
     ∧ (filterTerms a).getD 1 ""
         = "contrast(" ++ renderNum (a.contrast + 0.2 * a.sharpness) ++ "%)"
     ∧ (filterTerms a).getD 2 ""
         = "saturate(" ++ renderNum (a.saturation + (a.vibrance - 100)) ++ "%)"
     ∧ (filterTerms a).getD 3 "" = "opacity(" ++ renderNum a.exposure ++ "%)"
     ∧ (filterTerms a).getD 4 "" = "hue-rotate(" ++ renderNum a.hue ++ "deg)"
     ∧ (filterTerms a).getD 5 ""
         = (if 50 < a.sharpness then
              "brightness(" ++ renderNum (100 + 0.05 * a.sharpness) ++ "%)"
            else ""))
  ∧ filterString sharp80
      = "brightness(100%) contrast(116%) saturate(100%) opacity(100%) hue-rotate(0deg) brightness(104%)"
  ∧ filterString sharp40
      = "brightness(100%) contrast(108%) saturate(100%) opacity(100%) hue-rotate(0deg) " := by
  refine ⟨?_, ?_, ?_⟩
  · intro a
    refine ⟨rfl, ?_, rfl, rfl, rfl, ?_⟩
    · rw [mul_comm (0.2:ℚ) a.sharpness]
      rfl
    · rw [mul_comm (0.05:ℚ) a.sharpness]
      rfl
  · simp only [filterString, filterTerms, sharp80, DEFAULT_ADJUSTMENTS]
    rw [if_pos (show (50:ℚ) < 80 by norm_num)]
    rw [show (100:ℚ) + 80 * 0.2 = 116 from by norm_num]
    rw [show (100:ℚ) + (100 - 100) = 100 from by norm_num]
    rw [show (100:ℚ) + 80 * 0.05 = 104 from by norm_num]
    rfl
  · simp only [filterString, filterTerms, sharp40, DEFAULT_ADJUSTMENTS]
    rw [if_neg (show ¬ (50:ℚ) < 40 by norm_num)]
    rw [show (100:ℚ) + 40 * 0.2 = 108 from by norm_num]
    rw [show (100:ℚ) + (100 - 100) = 100 from by norm_num]
    rfl

/-- **C9**: with sharpness ≤ 50 the filter string is the five non-empty
transform terms joined by single spaces plus one trailing space (the
empty sixth join element); with sharpness > 50 it is six non-empty terms
joined by single spaces, ending in ')' rather than a space. -/
theorem c9_trailing_space (a : ImageAdjustments) :
    (filterString a = if 50 < a.sharpness
        then joinSpace (baseTerms a) ++ " " ++ lumTerm a
        else joinSpace (baseTerms a) ++ " ")
  ∧ ("" ∈ baseTerms a) = False
  ∧ 0 < (lumTerm a).data.length
  ∧ (filterString a).data.getLast? = some (if 50 < a.sharpness then ')' else ' ') := by
  have hmain : filterString a = (if 50 < a.sharpness
      then joinSpace (baseTerms a) ++ " " ++ lumTerm a
      else joinSpace (baseTerms a) ++ " ") := by
    simp only [filterString, filterTerms, baseTerms, lumTerm, List.take, joinSpace]
    split
    · apply stringExt
      simp [String.data_append, List.append_assoc]
    · apply stringExt
      simp [String.data_append, List.append_assoc]
  refine ⟨hmain, ?_, Nat.succ_pos _, ?_⟩
  · refine eq_false ?_
    intro hmem
    simp only [baseTerms, filterTerms, List.take, List.mem_cons,
      List.not_mem_nil, or_false] at hmem
    rcases hmem with h | h | h | h | h <;> exact ne_empty_of_data_cons rfl h.symm
  · rw [hmain]
    split
    · rw [String.data_append, List.getLast?_append, lumTerm_data_getLast]
      rfl
    · rw [String.data_append, List.getLast?_append]
      rfl

/-- Case-sensitive: does the second list start with the first (the
pattern)? -/
def listStartsWith : List Char → List Char → Bool
  | [], _ => true
  | _ :: _, [] => false
  | p :: ps, c :: cs => p == c && listStartsWith ps cs

/-- JS `String.prototype.includes` on character lists: the pattern
occurs contiguously somewhere in the subject. -/
def listIncludes : List Char → List Char → Bool
  | [], pat => pat.isEmpty
  | s@(_ :: rest), pat => listStartsWith pat s || listIncludes rest pat

/-- JS `toLowerCase`, restricted to ASCII (all transient markers and
the inputs of interest are ASCII). -/
def lowerStr (s : String) : List Char :=
  s.data.map Char.toLower

/-- The transient-failure classification of `callWithRetry`
(gemini.ts line 46): the lowercased textual representation of the
failure contains "429", "503", "quota", or "overloaded". -/
def isRetryable (msg : String) : Bool :=
  listIncludes (lowerStr msg) ("429".data)
    || listIncludes (lowerStr msg) ("503".data)
    || listIncludes (lowerStr msg) ("quota".data)
    || listIncludes (lowerStr msg) ("overloaded".data)

/-- The outcome of one attempt of the wrapped async operation: a success
value or a failure with its textual representation. -/
inductive Outcome (T : Type) where
  | ok : T → Outcome T
  | fail : String → Outcome T
deriving DecidableEq, Repr

/-- `callWithRetry` (gemini.ts lines 40-55).  The wrapped operation is
modelled as a function from the attempt number to its outcome; the
returned list records the delays waited, in order.  The JS guard
`isRetryable && retries > 0` together with `retries - 1` is rendered by
matching `retries` against `r + 1`. -/
def callWithRetry {T : Type} (fn : Nat → Outcome T) :
    Nat → Nat → Nat → Outcome T × List Nat
  | attempt, 0, _ =>
    match fn attempt with
    | .ok v => (.ok v, [])
    | .fail msg => (.fail msg, [])
  | attempt, r + 1, delay =>
    match fn attempt with
    | .ok v => (.ok v, [])
    | .fail msg =>
      if isRetryable msg then
        ((callWithRetry fn (attempt + 1) r (delay * 2)).1,
         delay :: (callWithRetry fn (attempt + 1) r (delay * 2)).2)
      else (.fail msg, [])

theorem callWithRetry_ok {T : Type} (fn : Nat → Outcome T)
    (attempt retries delay : Nat) (v : T) (h : fn attempt = .ok v) :
    callWithRetry fn attempt retries delay = (.ok v, []) := by
  cases retries <;> rw [callWithRetry, h]

theorem callWithRetry_fail_stop {T : Type} (fn : Nat → Outcome T)
    (attempt retries delay : Nat) (msg : String)
    (h : fn attempt = .fail msg) (hnr : isRetryable msg = false) :
    callWithRetry fn attempt retries delay = (.fail msg, []) := by
  cases retries with
  | zero => rw [callWithRetry, h]
  | succ r =>
      rw [callWithRetry, h]
      simp [hnr]

theorem callWithRetry_exhausted {T : Type} (fn : Nat → Outcome T)
    (attempt delay : Nat) (msg : String) (h : fn attempt = .fail msg) :
    callWithRetry fn attempt 0 delay = (.fail msg, []) := by
  rw [callWithRetry, h]

theorem callWithRetry_step {T : Type} (fn : Nat → Outcome T)
    (attempt r delay : Nat) (msg : String)
    (h : fn attempt = .fail msg) (hr : isRetryable msg = true) :
    callWithRetry fn attempt (r + 1) delay
      = ((callWithRetry fn (attempt + 1) r (delay * 2)).1,
         delay :: (callWithRetry fn (attempt + 1) r (delay * 2)).2) := by
  rw [callWithRetry, h]
  simp [hr]

/-- **C1**: the retry wrapper — two transient-classified failures then a
success return the success with exactly the waits [1000, 2000] (default
delay, then its double) under the default budget 3; a non-transient
failure propagates unchanged with no wait; a failure with the budget
exhausted propagates unchanged with no wait; each transient-classified
failure with budget remaining decrements the budget and doubles the
delay for the recursive call. -/
theorem c1_retry :
    (∀ (T : Type) (fn : Nat → Outcome T) (m1 m2 : String) (v : T),
       fn 0 = .fail m1 → fn 1 = .fail m2 → fn 2 = .ok v →
       isRetryable m1 = true → isRetryable m2 = true →
       callWithRetry fn 0 3 1000 = (.ok v, [1000, 2000]))
  ∧ (∀ (T : Type) (fn : Nat → Outcome T) (attempt retries delay : Nat)
       (msg : String), fn attempt = .fail msg → isRetryable msg = false →
       callWithRetry fn attempt retries delay = (.fail msg, []))
  ∧ (∀ (T : Type) (fn : Nat → Outcome T) (attempt delay : Nat)
       (msg : String), fn attempt = .fail msg →
       callWithRetry fn attempt 0 delay = (.fail msg, []))
  ∧ (∀ (T : Type) (fn : Nat → Outcome T) (attempt r delay : Nat)
       (msg : String), fn attempt = .fail msg → isRetryable msg = true →
       callWithRetry fn attempt (r + 1) delay
         = ((callWithRetry fn (attempt + 1) r (delay * 2)).1,
            delay :: (callWithRetry fn (attempt + 1) r (delay * 2)).2)) := by
  refine ⟨?_, ?_, ?_, ?_⟩
  · intro T fn m1 m2 v h0 h1 h2 hr1 hr2
    have hC : callWithRetry fn 0 3 1000
        = ((callWithRetry fn 1 2 2000).1,
           1000 :: (callWithRetry fn 1 2 2000).2) := by
      have hstep := callWithRetry_step fn 0 2 1000 m1 h0 hr1
      simpa using hstep
    have hB : callWithRetry fn 1 2 2000
        = ((callWithRetry fn 2 1 4000).1,
           2000 :: (callWithRetry fn 2 1 4000).2) := by
      have hstep := callWithRetry_step fn 1 1 2000 m2 h1 hr2
      simpa using hstep
    have hA : callWithRetry fn 2 1 4000 = (.ok v, []) :=
      callWithRetry_ok fn 2 1 4000 v h2
    rw [hC, hB, hA]
  · intro T fn attempt retries delay msg h hnr
    exact callWithRetry_fail_stop fn attempt retries delay msg h hnr
  · intro T fn attempt delay msg h
    exact callWithRetry_exhausted fn attempt delay msg h
  · intro T fn attempt r delay msg h hr
    exact callWithRetry_step fn attempt r delay msg h hr

/-- A wrapped operation failing transiently twice, then succeeding. -/
def exFn : Nat → Outcome Nat := fun n =>
  if n = 0 then .fail "Error: 429 RESOURCE_EXHAUSTED quota"
  else if n = 1 then .fail "Error: 503 The model is overloaded"
  else .ok 42

/-- A wrapped operation failing with a non-transient message. -/
def exFnHard : Nat → Outcome Nat := fun _ => .fail "Error: 404 not found"

/-- Witness for C1 at concrete operations. -/
theorem c1_retry_witness :
    (exFn 0 = .fail "Error: 429 RESOURCE_EXHAUSTED quota"
      ∧ exFn 1 = .fail "Error: 503 The model is overloaded"
      ∧ exFn 2 = .ok 42
      ∧ isRetryable "Error: 429 RESOURCE_EXHAUSTED quota" = true
      ∧ isRetryable "Error: 503 The model is overloaded" = true
      ∧ isRetryable "Error: 404 not found" = false)
  ∧ callWithRetry exFn 0 3 1000 = (.ok 42, [1000, 2000])
  ∧ callWithRetry exFnHard 0 3 1000 = (.fail "Error: 404 not found", [])
  ∧ callWithRetry exFn 0 0 1000
      = (.fail "Error: 429 RESOURCE_EXHAUSTED quota", []) :=
  ⟨⟨rfl, rfl, rfl, by decide, by decide, by decide⟩,
   c1_retry.1 Nat exFn _ _ 42 rfl rfl rfl (by decide) (by decide),
   c1_retry.2.1 Nat exFnHard 0 3 1000 _ rfl (by decide),
   c1_retry.2.2.1 Nat exFn 0 1000 _ rfl⟩

/-- Case-insensitive prefix test (JS regex `i` flag; labels are ASCII). -/
def listStartsWithCI : List Char → List Char → Bool
  | [], _ => true
  | _ :: _, [] => false
  | p :: ps, c :: cs => (Char.toLower p == Char.toLower c) && listStartsWithCI ps cs

/-- Remainder of the subject just after the first case-insensitive
occurrence of the label, if any (the scan of `section.match(/LABEL:.../i)`). -/
def findAfterCI (label : List Char) : List Char → Option (List Char)
  | [] => if listStartsWithCI label [] then some [] else none
  | s@(_ :: rest) =>
    if listStartsWithCI label s then some (s.drop label.length)
    else findAfterCI label rest

/-- JS whitespace `\s` (common members: ASCII whitespace, NBSP, BOM and
the JS line terminators). -/
def isJsSpace (c : Char) : Bool :=
  c == ' ' || c == '\t' || c == '\n' || c == '\r' || c == '\x0b' || c == '\x0c'
    || c == '\u00a0' || c == '\ufeff' || c == '\u2028' || c == '\u2029'

/-- JS regex `.` excludes line terminators. -/
def isLineTerm (c : Char) : Bool :=
  c == '\n' || c == '\r' || c == '\u2028' || c == '\u2029'

/-- The capture of `/LABEL:\s*(.*)/i` on a section: at the first
case-insensitive occurrence of the label, skip whitespace greedily, then
capture up to the end of the line. -/
def matchField (label : String) (s : List Char) : Option (List Char) :=
  (findAfterCI label.data s).map
    (fun rest => (rest.dropWhile (fun c => isJsSpace c)).takeWhile
       (fun c => !isLineTerm c))

/-- JS `String.prototype.trim`. -/
def jsTrim (l : List Char) : List Char :=
  ((l.dropWhile (fun c => isJsSpace c)).reverse.dropWhile
     (fun c => isJsSpace c)).reverse

/-- JS `split` on a single-character separator (used for `','`). -/
def splitOnChar (sep : Char) : List Char → List (List Char)
  | [] => [[]]
  | c :: rest =>
    if c == sep then [] :: splitOnChar sep rest
    else
      match splitOnChar sep rest with
      | [] => [[c]]
      | g :: gs => (c :: g) :: gs

/-- JS `split` on a multi-character separator, scanning left to right
over non-overlapping occurrences.  Structured with explicit fuel (one
unit per consumed character) so that it evaluates by kernel reduction;
`splitOnStr` supplies fuel `s.length`, which always suffices. -/
def splitOnFuel (c0 : Char) (sepRest : List Char) :
    Nat → List Char → List Char → List (List Char)
  | _, [], acc => [acc.reverse]
  | 0, s, acc => [acc.reverse ++ s]
  | fuel + 1, c :: rest, acc =>
    if c == c0 && listStartsWith sepRest rest then
      acc.reverse :: splitOnFuel c0 sepRest fuel (rest.drop sepRest.length) []
    else splitOnFuel c0 sepRest fuel rest (c :: acc)

/-- JS `text.split(sep)` for a non-empty separator. -/
def splitOnStr (sep : String) (s : String) : List (List Char) :=
  match sep.data with
  | [] => [s.data]
  | c0 :: rest => splitOnFuel c0 rest s.data.length s.data []

/-- A prompt record (`ImagePrompt` in `src/types.ts`; `tags` is always
set by the parser). -/
structure ImagePrompt where
  title : String
  prompt : String
  source : String
  tags : List String
deriving DecidableEq, Repr

/-- One section of the response (gemini.ts lines 108-121): a record is
built exactly when the PROMPT field matches; a missing TITLE falls back
to "Style Trace", missing TAGS to ["Web Source"], and TAGS otherwise is
the comma-split of the capture with each element trimmed. -/
def parseSection (sec : List Char) : Option ImagePrompt :=
  match matchField "PROMPT:" sec with
  | some p => some
      { title := (match matchField "TITLE:" sec with
          | some t => (jsTrim t).asString
          | none => "Style Trace"),
        prompt := (jsTrim p).asString,
        source := "Global Crawl",
        tags := (match matchField "TAGS:" sec with
          | some t => (splitOnChar ',' t).map (fun x => (jsTrim x).asString)
          | none => ["Web Source"]) }
  | none => none

/-- The parsing core of `deepScanInternet` (gemini.ts lines 104-121):
split the response text on "---", keep the sections containing
"PROMPT:" (case-sensitively), and build one record per kept section. -/
def deepScanParse (text : String) : List ImagePrompt :=
  ((splitOnStr "---" text).filter
      (fun sec => listIncludes sec ("PROMPT:".data))).filterMap parseSection

theorem listStartsWithCI_of_cs (p : List Char) : ∀ s : List Char,
    listStartsWith p s = true → listStartsWithCI p s = true := by
  induction p with
  | nil => intro s _; rfl
  | cons a as ih =>
    intro s h
    cases s with
    | nil => simp [listStartsWith] at h
    | cons b bs =>
      simp only [listStartsWith, Bool.and_eq_true, beq_iff_eq] at h
      obtain ⟨rfl, h2⟩ := h
      simp only [listStartsWithCI, Bool.and_eq_true, beq_iff_eq]
      exact ⟨trivial, ih bs h2⟩

theorem findAfterCI_isSome (label : List Char) : ∀ s : List Char,
    listIncludes s label = true → (findAfterCI label s).isSome = true := by
  intro s
  induction s with
  | nil =>
    intro h
    simp only [listIncludes] at h
    cases label with
    | nil => rfl
    | cons c cs => simp [List.isEmpty] at h
  | cons c rest ih =>
    intro h
    simp only [listIncludes, Bool.or_eq_true] at h
    rcases h with h | h
    · have h' := listStartsWithCI_of_cs label (c :: rest) h
      rw [findAfterCI, h']
      rfl
    · rw [findAfterCI]
      split
      · rfl
      · exact ih h

theorem filterMap_length_of_isSome {α β : Type} (f : α → Option β) :
    ∀ l : List α, (∀ x ∈ l, (f x).isSome = true) →
      (l.filterMap f).length = l.length := by
  intro l
  induction l with
  | nil => intro _; rfl
  | cons a as ih =>
    intro h
    have ha := h a (List.mem_cons_self a as)
    cases hfa : f a with
    | none => rw [hfa] at ha; simp at ha
    | some b =>
      simp only [List.filterMap_cons, hfa, List.length_cons]
      rw [ih (fun x hx => h x (List.mem_cons_of_mem a hx))]

theorem parseSection_isSome (sec : List Char)
    (h : listIncludes sec ("PROMPT:".data) = true) :
    (parseSection sec).isSome = true := by
  have hf := findAfterCI_isSome ("PROMPT:".data) sec h
  unfold parseSection matchField
  cases hmatch : findAfterCI ("PROMPT:".data) sec with
  | none => rw [hmatch] at hf; simp at hf
  | some rest => simp [hmatch]

/-- **C7**: every section containing the PROMPT field yields exactly one
record and every section lacking it yields none, so the record count
always equals the count of PROMPT-bearing sections (in particular a
two-section response with exactly one PROMPT field yields exactly one
record); a section with TITLE, PROMPT and TAGS yields the trimmed
comma-split tags; a PROMPT-only section gets title "Style Trace" and
tags ["Web Source"]. -/
theorem c7_deep_scan_parsing :
    (∀ text : String,
       (deepScanParse text).length
         = ((splitOnStr "---" text).filter
             (fun sec => listIncludes sec ("PROMPT:".data))).length)
  ∧ deepScanParse "TITLE: Neon City\nPROMPT: a neon city at night\nTAGS: cyberpunk , neon,city---\nno fields here"
      = [{ title := "Neon City", prompt := "a neon city at night",
           source := "Global Crawl",
           tags := ["cyberpunk", "neon", "city"] }]
  ∧ deepScanParse "PROMPT: bare prompt"
      = [{ title := "Style Trace", prompt := "bare prompt",
           source := "Global Crawl", tags := ["Web Source"] }] := by
  refine ⟨?_, by decide, by decide⟩
  intro text
  unfold deepScanParse
  apply filterMap_length_of_isSome
  intro sec hsec
  have hp := List.of_mem_filter hsec
  exact parseSection_isSome sec hp

/-- `ConnectionStatus` from `src/types.ts`. -/
inductive ConnectionStatus where
  | checking | online | offline | error | throttled
deriving DecidableEq, Repr

/-- The App state relevant to connection health (App.tsx lines 10, 18):
the status and the cooldown counter in seconds. -/
structure ConnState where
  connection : ConnectionStatus
  cooldown : Nat
deriving DecidableEq, Repr

/-- Startup state. -/
def initialConn : ConnState := { connection := .checking, cooldown := 0 }

/-- Outcome of a health probe (`testKeyAccess`, which never throws):
success, quota-classified failure, or hard failure. -/
inductive ProbeOutcome where
  | success | quotaFail | hardFail
deriving DecidableEq, Repr

/-- Events driving the machine: start of `checkHealth`, its completion
with a probe outcome, the discovery-call failure paths, the one-second
interval tick, and the cooldown-effect body for cooldown 0. -/
inductive ConnEvent where
  | beginProbe
  | probe : ProbeOutcome → ConnEvent
  | searchQuotaFail
  | searchHardFail
  | tick
  | effectStep
deriving DecidableEq, Repr

/-- One transition (`checkHealth` App.tsx lines 24-38, the `handleSearch`
catch lines 68-79, the cooldown effect lines 44-51).  `checkHealth`
never touches `cooldown`; only `searchQuotaFail` sets it (to 30).
`tick` fires only while the interval exists (cooldown > 0), and
`effectStep` is the effect's else-branch: a throttled state with
cooldown 0 goes back online without any probe. -/
def applyConnEvent (s : ConnState) : ConnEvent → ConnState
  | .beginProbe => { s with connection := .checking }
  | .probe .success => { s with connection := .online }
  | .probe .quotaFail => { s with connection := .throttled }
  | .probe .hardFail => { s with connection := .error }
  | .searchQuotaFail => { s with cooldown := 30 }
  | .searchHardFail => s
  | .tick => if 0 < s.cooldown then { s with cooldown := s.cooldown - 1 } else s
  | .effectStep =>
    if s.cooldown = 0 ∧ s.connection = .throttled then
      { s with connection := .online }
    else s

/-- Iterated ticks. -/
def tickN : Nat → ConnState → ConnState
  | 0, s => s
  | n + 1, s => tickN n (applyConnEvent s .tick)

/-- **C8 counterexample**: a quota-classified probe failure at startup
moves the state to throttled but sets no cooldown — the counter stays 0
(`checkHealth` never writes `cooldown`; 30 seconds is set only in the
discovery-call failure path). -/
theorem c8_counterexample :
    (applyConnEvent initialConn (.probe .quotaFail)).connection
        = ConnectionStatus.throttled
  ∧ ¬ 0 < (applyConnEvent initialConn (.probe .quotaFail)).cooldown := by
  decide

/-- **C8 (amended)**: a quota-classified probe outcome moves the state
to throttled with the cooldown counter left unchanged (no probe-failure
cooldown default exists; the 30-second cooldown is set only by a
throttled discovery call); a hard probe failure moves to error; a probe
success to online; while the cooldown is positive each one-second tick
decrements it; a throttled state with cooldown 0 returns to online by
the effect alone; and from throttled with cooldown n, n ticks followed
by the effect yield online — no probe event involved. -/
theorem c8_health_machine :
    (∀ s : ConnState, applyConnEvent s (.probe .quotaFail)
        = { s with connection := .throttled })
  ∧ (∀ s : ConnState, applyConnEvent s (.probe .hardFail)
        = { s with connection := .error })
  ∧ (∀ s : ConnState, applyConnEvent s (.probe .success)
        = { s with connection := .online })
  ∧ (∀ s : ConnState, applyConnEvent s .searchQuotaFail
        = { s with cooldown := 30 })
  ∧ (∀ s : ConnState, 0 < s.cooldown →
        applyConnEvent s .tick = { s with cooldown := s.cooldown - 1 })
  ∧ (∀ s : ConnState, s.connection = .throttled → s.cooldown = 0 →
        applyConnEvent s .effectStep = { s with connection := .online })
  ∧ (∀ n : Nat,
        applyConnEvent
          (tickN n { connection := .throttled, cooldown := n }) .effectStep
          = { connection := .online, cooldown := 0 }) := by
  refine ⟨fun s => rfl, fun s => rfl, fun s => rfl, fun s => rfl, ?_, ?_, ?_⟩
  · intro s h
    show (if 0 < s.cooldown then _ else _) = _
    rw [if_pos h]
  · intro s h1 h2
    show (if s.cooldown = 0 ∧ s.connection = .throttled then _ else _) = _
    rw [if_pos ⟨h2, h1⟩]
  · intro n
    induction n with
    | zero => decide
    | succ n ih =>
        show applyConnEvent
          (tickN n (applyConnEvent ⟨.throttled, n + 1⟩ .tick)) .effectStep = _
        have htick : applyConnEvent (⟨.throttled, n + 1⟩ : ConnState) .tick
            = ⟨.throttled, n⟩ := by
          simp [applyConnEvent]
        rw [htick]
        exact ih

/-- Witness for the amended C8. -/
theorem c8_health_machine_witness :
    (0 < (⟨ConnectionStatus.throttled, 5⟩ : ConnState).cooldown
      ∧ applyConnEvent ⟨.throttled, 5⟩ .tick
          = { (⟨.throttled, 5⟩ : ConnState) with
              cooldown := (⟨.throttled, 5⟩ : ConnState).cooldown - 1 })
  ∧ ((⟨ConnectionStatus.throttled, 0⟩ : ConnState).connection = .throttled
      ∧ (⟨ConnectionStatus.throttled, 0⟩ : ConnState).cooldown = 0
      ∧ applyConnEvent ⟨.throttled, 0⟩ .effectStep
          = { (⟨.throttled, 0⟩ : ConnState) with connection := .online }) :=
  ⟨⟨by decide, c8_health_machine.2.2.2.2.1 ⟨.throttled, 5⟩ (by decide)⟩,
   ⟨rfl, rfl, c8_health_machine.2.2.2.2.2.1 ⟨.throttled, 0⟩ rfl rfl⟩⟩
